import Mathlib

/-!
Formal model of the AMfe solver module (src/amfe/solver.py): the Newton-Raphson
statics and dynamics drivers, the generalized-alpha and JWH-alpha scheme
parameters and iteration matrices, and the Python-level calling conventions of
the solver constructors.  The mechanical system, the linear-solver adapter and
the (virtual) scheme methods of the base dynamics solver are external
collaborators of the module and enter as parameters, exactly as in the source.
Real or rational numbers stand for Python floats, with exact arithmetic;
`norm_of_vector` is the source's `sqrt(array.T.dot(array))`.
-/

namespace AMfe

/-! ### Python calling conventions of the constructors and of solve()

The constructors and the `set_parameters` overrides fail or succeed purely by
how Python binds their arguments, so we model that binding. -/

/-- Python error kinds raised by the solver constructors and calls. -/
inductive PyErr where
  | typeError
  | keyError
  | valueError
deriving DecidableEq

/-- Binding of a call `f(**kwargs)` against a function whose parameters after
`self` are exactly `params` (positional-or-keyword, without defaults): Python
raises a TypeError when a keyword is unexpected or a required parameter is
missing. -/
def bindKwargs (params kwargs : List String) : Except PyErr Unit :=
  if (∀ k ∈ kwargs, k ∈ params) ∧ (∀ p ∈ params, p ∈ kwargs) then .ok ()
  else .error .typeError

/-- Binding of the positional arguments of a call against a function accepting
at most `nParams` positional arguments after `self` (extra keyword arguments,
if any, are absorbed by a `**options` parameter): TypeError when too many
positional arguments are given. -/
def callPositional (nParams nArgs : ℕ) : Except PyErr Unit :=
  if nParams < nArgs then .error .typeError else .ok ()

/-- Python dictionary subscript `options[k]`: KeyError when the key is absent. -/
def dictGet (keys : List String) (k : String) : Except PyErr Unit :=
  if k ∈ keys then .ok () else .error .keyError

/-- Options processing of NonlinearDynamicsSolver.__init__ (solver.py 353-422):
`dt` is required and its absence raises a ValueError; on success the full
options dictionary is stored as `self.options`.  (Initial-condition dimension
checks can also fail, so success of the real constructor implies success
here.) -/
def nonlinearDynamicsSolver_init_options (keys : List String) :
    Except PyErr (List String) :=
  if "dt" ∈ keys then .ok keys else .error .valueError

/-- The start of NonlinearDynamicsSolver.solve for the generalized-alpha
subclass (solver.py 484): the call `self.set_parameters(**self.options)`
against the override signature `set_parameters(self, options)` (solver.py
771), executed before the time-step loop; `loopout` stands for whatever output
the subsequent time loop would produce. -/
def genAlphaNonlinear_solve_call (keys : List String) (loopout : List (ℚ × ℚ)) :
    Except PyErr (List (ℚ × ℚ)) :=
  (bindKwargs ["options"] keys).map fun _ => loopout

/-- The same call for the JWH-alpha subclass, whose `set_parameters` signature
(solver.py 870) is also `(self, options)`. -/
def jwhAlphaNonlinear_solve_call (keys : List String) (loopout : List (ℚ × ℚ)) :
    Except PyErr (List (ℚ × ℚ)) :=
  (bindKwargs ["options"] keys).map fun _ => loopout

/-- LinearStaticsSolver.__init__ (solver.py 266-274): it passes the options
dictionary as a second positional argument to Solver.__init__, which accepts
one positional argument (`mechanical_system`) plus `**options`; reading option
`t` afterwards has a default and cannot fail. -/
def linearStaticsSolver_init (keys : List String) : Except PyErr Unit := do
  callPositional 1 2
  pure ()

/-- LinearDynamicsSolver.__init__ (solver.py 592-631): after a well-formed
super().__init__ call it evaluates `options['initial_conditions']` (KeyError
when absent) and passes the value positionally to `set_initial_conditions`,
whose signature `(self, **options)` accepts no positional argument
(TypeError). -/
def linearDynamicsSolver_init (keys : List String) : Except PyErr Unit := do
  callPositional 1 1
  dictGet keys "initial_conditions"
  callPositional 0 1
  pure ()

/-- GeneralizedAlphaLinearDynamicsSolver.__init__ begins with
super().__init__, i.e. LinearDynamicsSolver.__init__. -/
def genAlphaLinear_init (keys : List String) : Except PyErr Unit := do
  linearDynamicsSolver_init keys
  pure ()

/-- JWHAlphaLinearDynamicsSolver.__init__ begins with super().__init__,
i.e. LinearDynamicsSolver.__init__. -/
def jwhAlphaLinear_init (keys : List String) : Except PyErr Unit := do
  linearDynamicsSolver_init keys
  pure ()

/-! ### Scheme parameters (set_parameters, solver.py 771-780 and 870-878) -/

/-- Coefficients of the generalized-alpha scheme. -/
structure GAParams where
  alpha_m : ℚ
  alpha_f : ℚ
  beta : ℚ
  gamma : ℚ
deriving DecidableEq

/-- GeneralizedAlphaNonlinearDynamicsSolver.set_parameters (solver.py
771-780). -/
def genAlpha_set_parameters (rho_inf : ℚ) : GAParams :=
  let alpha_m := (2 * rho_inf - 1) / (rho_inf + 1)
  let alpha_f := rho_inf / (rho_inf + 1)
  { alpha_m := alpha_m
    alpha_f := alpha_f
    beta := (1 / 4) * (1 - alpha_m + alpha_f) ^ 2
    gamma := 1 / 2 - alpha_m + alpha_f }

/-- Coefficients of the JWH-alpha scheme (no `beta` is ever set). -/
structure JWHParams where
  alpha_m : ℚ
  alpha_f : ℚ
  gamma : ℚ
deriving DecidableEq

/-- JWHAlphaNonlinearDynamicsSolver.set_parameters (solver.py 870-878). -/
def jwhAlpha_set_parameters (rho_inf : ℚ) : JWHParams :=
  let alpha_m := (3 - rho_inf) / (2 * (1 + rho_inf))
  let alpha_f := 1 / (1 + rho_inf)
  { alpha_m := alpha_m
    alpha_f := alpha_f
    gamma := 1 / 2 + alpha_m - alpha_f }

/-! ### Generalized-alpha newton_raphson (solver.py 792-823) -/

/-- The attributes of the mechanical system consumed by
GeneralizedAlphaNonlinearDynamicsSolver.newton_raphson (an external
collaborator); `D_constr = none` models a system without damping operator,
and `M_constr` models the mass matrix after the `self.mechanical_system.M()`
ensure-call. -/
structure GAMech (n : ℕ) where
  M_constr : Matrix (Fin n) (Fin n) ℚ
  D_constr : Option (Matrix (Fin n) (Fin n) ℚ)
  K_and_f : (Fin n → ℚ) → ℚ → Matrix (Fin n) (Fin n) ℚ × (Fin n → ℚ)
  f_ext : (Fin n → ℚ) → (Fin n → ℚ) → ℚ → (Fin n → ℚ)

/-- GeneralizedAlphaNonlinearDynamicsSolver.newton_raphson (solver.py
792-823), returning (Jacobian, residual, external force). -/
def genAlpha_newton_raphson {n : ℕ} (p : GAParams) (dt : ℚ) (sys : GAMech n)
    (q dq _v ddq : Fin n → ℚ) (t : ℚ) (q_old dq_old _v_old ddq_old : Fin n → ℚ)
    (t_old : ℚ) :
    Matrix (Fin n) (Fin n) ℚ × (Fin n → ℚ) × (Fin n → ℚ) :=
  let ddq_m := (1 - p.alpha_m) • ddq + p.alpha_m • ddq_old
  let q_f := (1 - p.alpha_f) • q + p.alpha_f • q_old
  let dq_f := (1 - p.alpha_f) • dq + p.alpha_f • dq_old
  let t_f := (1 - p.alpha_f) * t + p.alpha_f * t_old
  let Kf := sys.K_and_f q_f t_f
  let f_ext_f := sys.f_ext q_f dq_f t_f
  match sys.D_constr with
  | none =>
      ((-((1 - p.alpha_m) / (p.beta * dt ^ 2))) • sys.M_constr
         - (1 - p.alpha_f) • Kf.1,
       f_ext_f - sys.M_constr.mulVec ddq_m - Kf.2,
       f_ext_f)
  | some D =>
      ((-((1 - p.alpha_m) / (p.beta * dt ^ 2))) • sys.M_constr
         - ((1 - p.alpha_f) * p.gamma / (p.beta * dt)) • D
         - (1 - p.alpha_f) • Kf.1,
       f_ext_f - sys.M_constr.mulVec ddq_m - D.mulVec dq_f - Kf.2,
       f_ext_f)

/-- The alpha-blended displacement of the spec (C5):
`q_f = (1-alpha_f)q + alpha_f q_old`; the same blend serves for `dq_f`. -/
def specGA_blend_f {n : ℕ} (p : GAParams) (x x_old : Fin n → ℚ) : Fin n → ℚ :=
  (1 - p.alpha_f) • x + p.alpha_f • x_old

/-- The blended time of the spec: `t_f = (1-alpha_f)t + alpha_f t_old`. -/
def specGA_blend_t (p : GAParams) (t t_old : ℚ) : ℚ :=
  (1 - p.alpha_f) * t + p.alpha_f * t_old

/-- The acceleration blend of the spec:
`ddq_m = (1-alpha_m)ddq + alpha_m ddq_old`. -/
def specGA_blend_m {n : ℕ} (p : GAParams) (ddq ddq_old : Fin n → ℚ) : Fin n → ℚ :=
  (1 - p.alpha_m) • ddq + p.alpha_m • ddq_old

/-- Effective Jacobian as worded by the spec (C5):
`-[(1-alpha_m)/(beta dt^2)] M - (1-alpha_f)[gamma/(beta dt)] D - (1-alpha_f) K`,
with the damping term omitted entirely when no damping operator is present. -/
def specGA_Jacobian {n : ℕ} (p : GAParams) (dt : ℚ)
    (Mc : Matrix (Fin n) (Fin n) ℚ) (Dc : Option (Matrix (Fin n) (Fin n) ℚ))
    (K : Matrix (Fin n) (Fin n) ℚ) : Matrix (Fin n) (Fin n) ℚ :=
  match Dc with
  | some D =>
      (-((1 - p.alpha_m) / (p.beta * dt ^ 2))) • Mc
        - ((1 - p.alpha_f) * (p.gamma / (p.beta * dt))) • D
        - (1 - p.alpha_f) • K
  | none =>
      (-((1 - p.alpha_m) / (p.beta * dt ^ 2))) • Mc - (1 - p.alpha_f) • K

/-- Residual as worded by the spec (C5):
`f_ext_f - M ddq_m - D dq_f - f_int_f`, with the damping term omitted when no
damping operator is present. -/
def specGA_residual {n : ℕ} (Mc : Matrix (Fin n) (Fin n) ℚ)
    (Dc : Option (Matrix (Fin n) (Fin n) ℚ))
    (f_ext_f f_int_f ddq_m dq_f : Fin n → ℚ) : Fin n → ℚ :=
  match Dc with
  | some D => f_ext_f - Mc.mulVec ddq_m - D.mulVec dq_f - f_int_f
  | none => f_ext_f - Mc.mulVec ddq_m - f_int_f

/-! ### The 2-norm used by both Newton loops (solver.py 1136-1151) -/

/-- norm_of_vector: `np.sqrt(array.T.dot(array))`. -/
noncomputable def norm_of_vector {n : ℕ} (x : Fin n → ℝ) : ℝ :=
  Real.sqrt (Matrix.dotProduct x x)

/-! ### numpy arange (the time/output and load-step grids) -/

/-- Exact-arithmetic `np.arange(a, b, s)`: the points `a + i*s` for
`0 ≤ i < ⌈(b-a)/s⌉`. -/
def arange {α : Type} [LinearOrderedField α] [FloorRing α] (a b s : α) :
    List α :=
  (List.range (⌈(b - a) / s⌉.toNat)).map fun (i : ℕ) => a + (i : α) * s

/-- The `1E-13` output tolerance of the dynamic solvers (solver.py 483). -/
def outEps (α : Type) [LinearOrderedField α] : α := 1 / 10 ^ 13

/-! ### NonlinearDynamicsSolver.solve (solver.py 454-572)

The base-class solve is parametric in the scheme methods `predict`,
`newton_raphson`, `correct` (virtual, overridden by subclasses), in the
mechanical system and in the linear-solver adapter, so the embedding takes
them as parameters: `V` is the vector type, `MM` the Jacobian type, `normV`
the vector norm used by the loop (`norm_of_vector` in the source), `lin` the
adapter's `solve` after `set_A`. -/

/-- Options of the nonlinear dynamics solver, as read by __init__. -/
structure DynParams (α : Type) where
  t0 : α
  t_end : α
  dt : α
  dt_output : α
  rtol : α
  atol : α
  n_iter_max : ℕ
  conv_abort : Bool
  write_iter : Bool
  track_niter : Bool
  use_v : Bool

/-- The virtual scheme methods of NonlinearDynamicsSolver, each acting on the
state `(q, dq, v, ddq)`; `newton_raphson` returns (Jacobian, residual,
external force). -/
structure DynScheme (α V MM : Type) where
  predict : V → V → V → V → V × V × V × V
  newton_raphson : V → V → V → V → α → V → V → V → V → α → MM × V × V
  correct : V → V → V → V → V → V × V × V × V

/-- The variables saved at the head of a time step (solver.py 496-502). -/
structure DynOld (α V : Type) where
  t_old : α
  q_old : V
  dq_old : V
  v_old : V
  ddq_old : V
  f_ext_old : V

/-- The mutable locals of the Newton-Raphson iteration loop; the source's
`res_abs` is always `normV res` of the current `res` and is not stored. -/
structure DynIter (α V MM : Type) where
  t : α
  q : V
  dq : V
  v : V
  ddq : V
  Jac : MM
  res : V
  f_ext : V
  n_iter : ℕ
  output : List (α × V)

/-- Outcome of the Newton-Raphson iteration loop of one time step. -/
inductive NewtonResult (α V MM : Type) where
  | converged (it : DynIter α V MM)
  | rolledBack (it : DynIter α V MM)
  | aborted (it : DynIter α V MM)

/-- The Newton-Raphson iteration loop of NonlinearDynamicsSolver.solve
(solver.py 512-556): iterate while `res_abs > rtol*abs_f_ext + atol`; past
`n_iter_max` iterations either abort the whole solve (`conv_abort`) or roll
`t, q, dq, v, f_ext` back to the saved values and break — `ddq` is left at its
last iterated value (solver.py 549-553). -/
def newtonLoop {α V MM : Type} [LinearOrderedField α] [AddCommGroup V]
    (P : DynParams α) (normV : V → α) (lin : MM → V → V)
    (sch : DynScheme α V MM) (absF : α) (old : DynOld α V)
    (it : DynIter α V MM) : NewtonResult α V MM :=
  if normV it.res > P.rtol * absF + P.atol then
    let delta_q := -(lin it.Jac it.res)
    let c := sch.correct it.q it.dq it.v it.ddq delta_q
    let nr := sch.newton_raphson c.1 c.2.1 c.2.2.1 c.2.2.2 it.t
        old.q_old old.dq_old old.v_old old.ddq_old old.t_old
    let out := if P.write_iter then
        it.output ++ [(it.t + P.dt / 1000000 * ((it.n_iter + 1 : ℕ) : α), c.1)]
      else it.output
    let it2 : DynIter α V MM :=
      { t := it.t, q := c.1, dq := c.2.1, v := c.2.2.1, ddq := c.2.2.2,
        Jac := nr.1, res := nr.2.1, f_ext := nr.2.2,
        n_iter := it.n_iter + 1, output := out }
    if h2 : it.n_iter + 1 > P.n_iter_max then
      if P.conv_abort then .aborted it2
      else .rolledBack { it2 with t := old.t_old, q := old.q_old,
                                  dq := old.dq_old, v := old.v_old,
                                  f_ext := old.f_ext_old }
    else newtonLoop P normV lin sch absF old it2
  else .converged it
termination_by P.n_iter_max + 1 - it.n_iter
decreasing_by simp_wf; omega

/-- The full state of the time-step loop of NonlinearDynamicsSolver.solve.
The fields `absFTrace` (the `abs_f_ext` scale used by each step's Newton
loop), `accepted` (the initial state followed by every state committed by a
converged Newton loop) and `abortedFlag` are observers that record what the
loop did; they influence nothing. -/
structure DynState (α V : Type) where
  t : α
  q : V
  dq : V
  v : V
  ddq : V
  f_ext : V
  abs_f_ext : α
  time_index : ℕ
  output : List (α × V)
  info : List (α × ℕ × α)
  absFTrace : List α
  accepted : List (α × V)

/-- The save of the old variables at the head of a time step (solver.py
496-502). -/
def stepOld {α V : Type} (st : DynState α V) : DynOld α V :=
  ⟨st.t, st.q, st.dq, st.v, st.ddq, st.f_ext⟩

/-- Prediction phase of a time step (solver.py 504-510): advance `t` by `dt`,
predict the state, and evaluate the first Jacobian/residual/external force. -/
def stepStart {α V MM : Type} [LinearOrderedField α]
    (P : DynParams α) (sch : DynScheme α V MM) (st : DynState α V) :
    DynIter α V MM :=
  let t1 := st.t + P.dt
  let p := sch.predict st.q st.dq st.v st.ddq
  let nr := sch.newton_raphson p.1 p.2.1 p.2.2.1 p.2.2.2 t1
      st.q st.dq st.v st.ddq st.t
  { t := t1, q := p.1, dq := p.2.1, v := p.2.2.1, ddq := p.2.2.2,
    Jac := nr.1, res := nr.2.1, f_ext := nr.2.2, n_iter := 0,
    output := st.output }

/-- The running convergence scale of a step (solver.py 509):
`abs_f_ext = max(abs_f_ext, norm_of_vector(f_ext))`. -/
def stepAbsF {α V MM : Type} [LinearOrderedField α]
    (P : DynParams α) (normV : V → α) (sch : DynScheme α V MM)
    (st : DynState α V) : α :=
  max st.abs_f_ext (normV (stepStart P sch st).f_ext)

/-- One full time step after the output check (solver.py 496-560): save,
predict, run the Newton loop, and commit its outcome; the Bool is true when
the Newton loop aborted the whole solve. -/
def stepBody {α V MM : Type} [LinearOrderedField α] [AddCommGroup V]
    (P : DynParams α) (normV : V → α) (lin : MM → V → V)
    (sch : DynScheme α V MM) (st : DynState α V) : DynState α V × Bool :=
  let absF := stepAbsF P normV sch st
  match newtonLoop P normV lin sch absF (stepOld st) (stepStart P sch st) with
  | .converged it =>
      ({ st with t := it.t, q := it.q, dq := it.dq, v := it.v, ddq := it.ddq,
                 f_ext := it.f_ext, abs_f_ext := absF, output := it.output,
                 info := if P.track_niter then
                     st.info ++ [(it.t, it.n_iter, normV it.res)]
                   else st.info,
                 absFTrace := st.absFTrace ++ [absF],
                 accepted := st.accepted ++ [(it.t, it.q)] }, false)
  | .rolledBack it =>
      ({ st with t := it.t, q := it.q, dq := it.dq, v := it.v, ddq := it.ddq,
                 f_ext := it.f_ext, abs_f_ext := absF, output := it.output,
                 info := if P.track_niter then
                     st.info ++ [(it.t, it.n_iter, normV it.res)]
                   else st.info,
                 absFTrace := st.absFTrace ++ [absF] }, false)
  | .aborted it =>
      ({ st with t := it.t, q := it.q, dq := it.dq, v := it.v, ddq := it.ddq,
                 f_ext := it.f_ext, abs_f_ext := absF, output := it.output,
                 absFTrace := st.absFTrace ++ [absF] }, true)

/-- The output check at the head of the time loop (solver.py 489-494): when
`t + 1E-13` has reached the next output grid point, write `(t, q)` and advance
the grid index; the Bool is true when the loop is to end now (grid exhausted,
either right away or by the break after the final write). -/
def writePhase {α V : Type} [LinearOrderedField α]
    (grid : List α) (st : DynState α V) : DynState α V × Bool :=
  if h : st.time_index < grid.length then
    if st.t + outEps α ≥ grid.get ⟨st.time_index, h⟩ then
      let st1 := { st with output := st.output ++ [(st.t, st.q)],
                           time_index := st.time_index + 1 }
      (st1, decide (st1.time_index = grid.length))
    else (st, false)
  else (st, true)

/-- The time-step loop of NonlinearDynamicsSolver.solve (solver.py 487-562),
with fuel (the source loop can retry a non-converging step forever). -/
def timeLoop {α V MM : Type} [LinearOrderedField α] [AddCommGroup V]
    (P : DynParams α) (normV : V → α) (lin : MM → V → V)
    (sch : DynScheme α V MM) (grid : List α) :
    ℕ → DynState α V → DynState α V
  | 0, st => st
  | fuel + 1, st =>
      let w := writePhase grid st
      if w.2 then w.1
      else
        let r := stepBody P normV lin sch w.1
        if r.2 then r.1 else timeLoop P normV lin sch grid fuel r.1

/-- The initialization of NonlinearDynamicsSolver.solve (solver.py 467-484):
`abs_f_ext` starts at `atol`; `vEmpty` stands for `np.empty((0, 0))`. -/
def dynInit {α V : Type} [LinearOrderedField α] [AddCommGroup V]
    (P : DynParams α) (q0 dq0 vEmpty : V) : DynState α V :=
  { t := P.t0, q := q0, dq := dq0, v := if P.use_v then dq0 else vEmpty,
    ddq := 0, f_ext := 0, abs_f_ext := P.atol, time_index := 0,
    output := [], info := [], absFTrace := [], accepted := [(P.t0, q0)] }

/-- NonlinearDynamicsSolver.solve (solver.py 454-572). -/
def dynSolve {α V MM : Type} [LinearOrderedField α] [FloorRing α]
    [AddCommGroup V] (P : DynParams α) (normV : V → α) (lin : MM → V → V)
    (sch : DynScheme α V MM) (q0 dq0 vEmpty : V) (fuel : ℕ) : DynState α V :=
  timeLoop P normV lin sch (arange P.t0 P.t_end P.dt_output) fuel
    (dynInit P q0 dq0 vEmpty)

/-! ### NonlinearStaticsSolver.solve (solver.py 166-251) -/

/-- Options of the nonlinear statics solver, as read by __init__. -/
structure StatParams (α : Type) where
  no_of_load_steps : ℕ
  rtol : α
  atol : α
  newton_damping : α
  n_max_iter : ℕ
  smplfd_nwtn_itr : ℕ
  write_iter : Bool
  conv_abort : Bool
  save : Bool
  track_niter : Bool

/-- The mechanical-system methods consumed by the statics solve (external
collaborator): `K_and_f u t` returns (tangential stiffness, internal force),
`f_ext u du t` the external force; the source's no-argument `K_and_f()` call
defaults to `u = 0, t = 0`. -/
structure StatMech (α V MM : Type) where
  K_and_f : V → α → MM × V
  f_ext : V → V → α → V

/-- The mutable locals of the statics Newton iteration; `lastDelta` is an
observer recording the correction `delta_u` applied by the latest iteration
and influences nothing. -/
structure StatIter (α V MM : Type) where
  u : V
  K : MM
  f_int : V
  f_ext : V
  res : V
  n_iter : ℕ
  output : List (α × V)
  lastDelta : V

/-- Outcome of the statics Newton iteration loop of one load step:
`aborted` is the early `return u_output` of solver.py 229-234. -/
inductive StatResult (α V MM : Type) where
  | done (it : StatIter α V MM)
  | aborted (it : StatIter α V MM)

/-- One iteration of the statics Newton loop (solver.py 208-226): solve for
the correction, damp and apply it, re-evaluate `K, f_int, f_ext` only when
`n_iter` is divisible by `smplfd_nwtn_itr`, and rebuild the residual from the
(possibly stale) forces. -/
def statIterBody {α V MM : Type} [LinearOrderedField α] [AddCommGroup V]
    [Module α V] (P : StatParams α) (lin : MM → V → V)
    (mech : StatMech α V MM) (du : V) (t : α) (it : StatIter α V MM) :
    StatIter α V MM :=
  let delta_u := lin it.K it.res
  let u1 := it.u + P.newton_damping • delta_u
  let refresh := it.n_iter % P.smplfd_nwtn_itr = 0
  let Kf := if refresh then mech.K_and_f u1 t else (it.K, it.f_int)
  let fe := if refresh then mech.f_ext u1 du t else it.f_ext
  let n1 := it.n_iter + 1
  let out := if P.write_iter then
      it.output ++ [(t + ((n1 : ℕ) : α) * (1 / 1000000), u1)]
    else it.output
  { u := u1, K := Kf.1, f_int := Kf.2, f_ext := fe, res := -Kf.2 + fe,
    n_iter := n1, output := out, lastDelta := delta_u }

/-- The statics Newton iteration loop (solver.py 205-236): iterate while
`abs_res > rtol*abs_f_ext + atol` and `n_max_iter > n_iter` (the stored
`abs_res`/`abs_f_ext` always equal the norms of the stored vectors); when the
iteration count reaches `n_max_iter` with `conv_abort` set, the whole solve
returns early. -/
def statNewtonLoop {α V MM : Type} [LinearOrderedField α] [AddCommGroup V]
    [Module α V] (P : StatParams α) (normV : V → α) (lin : MM → V → V)
    (mech : StatMech α V MM) (du : V) (t : α) (it : StatIter α V MM) :
    StatResult α V MM :=
  if h : normV it.res > P.rtol * normV it.f_ext + P.atol ∧
      P.n_max_iter > it.n_iter then
    let it1 := statIterBody P lin mech du t it
    if P.n_max_iter ≤ it.n_iter + 1 ∧ P.conv_abort then .aborted it1
    else statNewtonLoop P normV lin mech du t it1
  else .done it
termination_by P.n_max_iter - it.n_iter
decreasing_by simp_wf; simp only [statIterBody]; omega

/-- The state carried across load steps of NonlinearStaticsSolver.solve;
`niters` is an observer recording the Newton iteration count of each
completed load step, `abortedFlag` records the early return. -/
structure StatState (α V MM : Type) where
  u : V
  K : MM
  f_int : V
  output : List (α × V)
  u_output : List V
  info : List (α × ℕ × α)
  niters : List ℕ
  abortedFlag : Bool

/-- The load-step loop of NonlinearStaticsSolver.solve (solver.py 196-243):
per step, rebuild `K, f_int, f_ext` and the residual at the committed
displacement, run the Newton loop, and either return early (abort, the
current step's displacement is not appended) or write/append the converged
displacement. -/
def loadLoop {α V MM : Type} [LinearOrderedField α] [AddCommGroup V]
    [Module α V] (P : StatParams α) (normV : V → α) (lin : MM → V → V)
    (mech : StatMech α V MM) (du : V) :
    List α → StatState α V MM → StatState α V MM
  | [], st => st
  | t :: ts, st =>
      let Kf := mech.K_and_f st.u t
      let fe := mech.f_ext st.u du t
      let it0 : StatIter α V MM :=
        { u := st.u, K := Kf.1, f_int := Kf.2, f_ext := fe,
          res := -Kf.2 + fe, n_iter := 0, output := st.output, lastDelta := 0 }
      match statNewtonLoop P normV lin mech du t it0 with
      | .aborted it =>
          { st with u := it.u, K := it.K, f_int := it.f_int,
                    output := it.output, abortedFlag := true }
      | .done it =>
          let st1 : StatState α V MM :=
            { u := it.u, K := it.K, f_int := it.f_int,
              output := if P.save then it.output ++ [(t, it.u)] else it.output,
              u_output := st.u_output ++ [it.u],
              info := if P.track_niter then
                  st.info ++ [(t, it.n_iter, normV it.res)]
                else st.info,
              niters := st.niters ++ [it.n_iter],
              abortedFlag := false }
          loadLoop P normV lin mech du ts st1

/-- The load-factor grid `np.arange(stepwidth, 1.0 + stepwidth, stepwidth)`
with `stepwidth = 1/no_of_load_steps` (solver.py 186, 196). -/
def statSteps {α : Type} [LinearOrderedField α] [FloorRing α]
    (P : StatParams α) : List α :=
  arange ((1 : α) / P.no_of_load_steps) (1 + (1 : α) / P.no_of_load_steps)
    ((1 : α) / P.no_of_load_steps)

/-- NonlinearStaticsSolver.solve (solver.py 166-251): initialize at
`u = du = 0`, write the initial state, and run the load-step loop. -/
def statSolve {α V MM : Type} [LinearOrderedField α] [FloorRing α]
    [AddCommGroup V] [Module α V] (P : StatParams α) (normV : V → α)
    (lin : MM → V → V) (mech : StatMech α V MM) : StatState α V MM :=
  let Kf0 := mech.K_and_f 0 0
  let st0 : StatState α V MM :=
    { u := 0, K := Kf0.1, f_int := Kf0.2, output := [(0, 0)], u_output := [],
      info := [], niters := [], abortedFlag := false }
  loadLoop P normV lin mech 0 (statSteps P) st0

/-! ### Observers and concrete instances used by the theorems -/

/-- The iteration state carried by any outcome of the dynamics Newton loop. -/
def NewtonResult.iter {α V MM : Type} : NewtonResult α V MM → DynIter α V MM
  | .converged it => it
  | .rolledBack it => it
  | .aborted it => it

/-- Invariant of the dynamics time loop: output times are bounded by the
current time and non-decreasing, and the current state as well as every
written state belongs to the committed (initial-or-accepted) states. -/
def dynOutputInv {α V : Type} [LinearOrderedField α] (st : DynState α V) :
    Prop :=
  List.Chain' (fun a b : α × V => a.1 ≤ b.1) st.output ∧
  (∀ w ∈ st.output, w.1 ≤ st.t) ∧
  (st.t, st.q) ∈ st.accepted ∧
  (∀ w ∈ st.output, w ∈ st.accepted)

/-- A concrete parameter set for the dynamics solver: two output grid points,
`dt = dt_output = 1`, `rtol = atol = 0`, `n_iter_max = 0`,
`conv_abort = false`. -/
def c3P : DynParams ℝ :=
  ⟨0, 2, 1, 1, 0, 0, 0, false, false, false, false⟩

/-- A concrete scheme on one degree of freedom whose prediction sets the
acceleration to the constant 5 and whose residual is constantly 1, so that
the Newton loop never converges. -/
def c3Sch : DynScheme ℝ (Fin 1 → ℝ) (Matrix (Fin 1) (Fin 1) ℝ) :=
  { predict := fun q dq v _ => (q, dq, v, fun _ => 5),
    newton_raphson := fun _ _ _ _ _ _ _ _ _ _ => (1, fun _ => 1, 0),
    correct := fun q dq v ddq _ => (q, dq, v, ddq) }

/-- A concrete linear-solver adapter returning the zero correction. -/
def c3lin : Matrix (Fin 1) (Fin 1) ℝ → (Fin 1 → ℝ) → (Fin 1 → ℝ) :=
  fun _ _ => 0

/-- A rational witness instance of the dynamics solver data: parameters with
`n_iter_max = 0` and `conv_abort = false`. -/
def c3wP : DynParams ℚ := ⟨0, 1, 1, 1, 0, 0, 0, false, false, false, false⟩

/-- A rational witness norm (the identity). -/
def c3wNorm : ℚ → ℚ := fun x => x

/-- A rational witness linear-solver adapter. -/
def c3wLin : ℚ → ℚ → ℚ := fun _ _ => 0

/-- A rational witness scheme over one scalar unknown. -/
def c3wSch : DynScheme ℚ ℚ ℚ :=
  ⟨fun q dq v _ => (q, dq, v, 5), fun _ _ _ _ _ _ _ _ _ _ => (0, 1, 0),
   fun q dq v ddq _ => (q, dq, v, ddq)⟩

/-- A rational witness time-loop state. -/
def c3wSt : DynState ℚ ℚ := ⟨3, 1, 2, 4, 6, 7, 0, 0, [], [], [], []⟩

/-- The Newton-loop exit state reached from `c3wSt`. -/
def c3wIt2 : DynIter ℚ ℚ ℚ := ⟨3, 1, 2, 4, 5, 0, 1, 7, 1, []⟩

/-! ### Theorems -/

/-- C9: none of the linear solver classes can ever be constructed:
LinearStaticsSolver.__init__ always raises TypeError (options passed
positionally to Solver.__init__), and LinearDynamicsSolver.__init__ — hence
also the generalized-alpha and JWH-alpha linear subclasses — raises TypeError
when `initial_conditions` is present (positional argument to the
keyword-only-accepting set_initial_conditions) and KeyError when it is
absent. -/
theorem linear_solver_constructors_always_raise (keys : List String) :
    linearStaticsSolver_init keys = .error .typeError ∧
    linearDynamicsSolver_init keys =
      .error (if "initial_conditions" ∈ keys then PyErr.typeError
              else PyErr.keyError) ∧
    genAlphaLinear_init keys =
      .error (if "initial_conditions" ∈ keys then PyErr.typeError
              else PyErr.keyError) ∧
    jwhAlphaLinear_init keys =
      .error (if "initial_conditions" ∈ keys then PyErr.typeError
              else PyErr.keyError) := by
  have h1 : linearStaticsSolver_init keys = .error .typeError := by
    simp [linearStaticsSolver_init, callPositional, Bind.bind, Except.bind]
  have h2 : linearDynamicsSolver_init keys =
      .error (if "initial_conditions" ∈ keys then PyErr.typeError
              else PyErr.keyError) := by
    by_cases hk : "initial_conditions" ∈ keys <;>
      simp [linearDynamicsSolver_init, callPositional, dictGet, hk,
        Bind.bind, Except.bind]
  refine ⟨h1, h2, ?_, ?_⟩ <;>
    simp [genAlphaLinear_init, jwhAlphaLinear_init, h2, Bind.bind, Except.bind]

/-- C1: for any options dictionary accepted by the nonlinear dynamics
constructor (so `dt` is among its keys), the call
`self.set_parameters(**self.options)` at the start of solve() raises
TypeError for both the generalized-alpha and the JWH-alpha subclasses —
whatever the time loop would have produced is never computed. -/
theorem nonlinear_alpha_solve_raises_typeError (keys keys2 : List String)
    (lg lj : List (ℚ × ℚ))
    (h : nonlinearDynamicsSolver_init_options keys = .ok keys2) :
    genAlphaNonlinear_solve_call keys2 lg = .error .typeError ∧
    jwhAlphaNonlinear_solve_call keys2 lj = .error .typeError := by
  have hdt : "dt" ∈ keys2 := by
    by_cases hk : "dt" ∈ keys
    · simp only [nonlinearDynamicsSolver_init_options, if_pos hk,
        Except.ok.injEq] at h
      exact h ▸ hk
    · simp [nonlinearDynamicsSolver_init_options, hk] at h
  have hbind : bindKwargs ["options"] keys2 = .error .typeError := by
    rw [bindKwargs, if_neg]
    intro hc
    have h1 := hc.1 "dt" hdt
    have h2 : "dt" = "options" := by simpa using h1
    exact absurd h2 (by decide)
  constructor <;>
    simp [genAlphaNonlinear_solve_call, jwhAlphaNonlinear_solve_call, hbind,
      Except.map]

/-- Witness for C1 at the concrete options dictionary with single key
`dt`. -/
theorem nonlinear_alpha_solve_raises_typeError_witness :
    nonlinearDynamicsSolver_init_options ["dt"] = .ok ["dt"] ∧
    genAlphaNonlinear_solve_call ["dt"] [] = .error .typeError ∧
    jwhAlphaNonlinear_solve_call ["dt"] [] = .error .typeError := by
  have h : nonlinearDynamicsSolver_init_options ["dt"] = .ok ["dt"] := by
    simp [nonlinearDynamicsSolver_init_options]
  exact ⟨h, (nonlinear_alpha_solve_raises_typeError _ _ [] [] h).1,
    (nonlinear_alpha_solve_raises_typeError _ _ [] [] h).2⟩

/-- C4 counterexample: at `rho_inf = 1` the generalized-alpha set_parameters
yields `alpha_m = alpha_f = 1/2`, not `alpha_m = alpha_f = 0` as the claim
states; the JWH-alpha set_parameters also yields `alpha_m = 1/2` and sets no
`beta` at all. -/
theorem alpha_params_at_rho_one_counterexample :
    (genAlpha_set_parameters 1).alpha_m = 1 / 2 ∧
    (genAlpha_set_parameters 1).alpha_f = 1 / 2 ∧
    ¬((genAlpha_set_parameters 1).alpha_m = 0 ∧
      (genAlpha_set_parameters 1).alpha_f = 0) ∧
    (jwhAlpha_set_parameters 1).alpha_m = 1 / 2 := by
  refine ⟨?_, ?_, ?_, ?_⟩ <;>
    norm_num [genAlpha_set_parameters, jwhAlpha_set_parameters]

/-- C4 (amended): at `rho_inf = 1` the scheme coefficients are
`alpha_m = alpha_f = 1/2`, `beta = 1/4`, `gamma = 1/2` for the
generalized-alpha solver, and `alpha_m = alpha_f = gamma = 1/2` for the
JWH-alpha solver (whose set_parameters defines no `beta`). -/
theorem alpha_params_at_rho_one :
    genAlpha_set_parameters 1 = ⟨1 / 2, 1 / 2, 1 / 4, 1 / 2⟩ ∧
    jwhAlpha_set_parameters 1 = ⟨1 / 2, 1 / 2, 1 / 2⟩ := by
  constructor <;>
    · simp only [genAlpha_set_parameters, jwhAlpha_set_parameters,
        GAParams.mk.injEq, JWHParams.mk.injEq]
      norm_num

/-- C5: GeneralizedAlphaNonlinearDynamicsSolver.newton_raphson returns
exactly the spec's effective Jacobian and residual, evaluated at the
alpha-blended state and acceleration, with both damping terms omitted
entirely when the system has no damping operator. -/
theorem genAlpha_newton_raphson_matches_spec {n : ℕ} (p : GAParams) (dt : ℚ)
    (sys : GAMech n) (q dq v ddq : Fin n → ℚ) (t : ℚ)
    (q_old dq_old v_old ddq_old : Fin n → ℚ) (t_old : ℚ) :
    genAlpha_newton_raphson p dt sys q dq v ddq t q_old dq_old v_old ddq_old
        t_old =
      (specGA_Jacobian p dt sys.M_constr sys.D_constr
         (sys.K_and_f (specGA_blend_f p q q_old) (specGA_blend_t p t t_old)).1,
       specGA_residual sys.M_constr sys.D_constr
         (sys.f_ext (specGA_blend_f p q q_old) (specGA_blend_f p dq dq_old)
            (specGA_blend_t p t t_old))
         (sys.K_and_f (specGA_blend_f p q q_old) (specGA_blend_t p t t_old)).2
         (specGA_blend_m p ddq ddq_old) (specGA_blend_f p dq dq_old),
       sys.f_ext (specGA_blend_f p q q_old) (specGA_blend_f p dq dq_old)
         (specGA_blend_t p t t_old)) := by
  cases hD : sys.D_constr with
  | none =>
      simp [genAlpha_newton_raphson, specGA_Jacobian, specGA_residual,
        specGA_blend_f, specGA_blend_t, specGA_blend_m, hD]
  | some D =>
      simp [genAlpha_newton_raphson, specGA_Jacobian, specGA_residual,
        specGA_blend_f, specGA_blend_t, specGA_blend_m, hD, mul_div_assoc]

section NewtonLoopLemmas

variable {α V MM : Type} [LinearOrderedField α] [AddCommGroup V]
variable (P : DynParams α) (normV : V → α) (lin : MM → V → V)
variable (sch : DynScheme α V MM) (absF : α) (old : DynOld α V)

/-- A rollback of the dynamics Newton loop happens only with
`conv_abort = false` and restores exactly `t, q, dq, v, f_ext` from the
saved old state. -/
theorem newtonLoop_rolledBack_eq (it it2 : DynIter α V MM)
    (h : newtonLoop P normV lin sch absF old it = .rolledBack it2) :
    P.conv_abort = false ∧ it2.t = old.t_old ∧ it2.q = old.q_old ∧
      it2.dq = old.dq_old ∧ it2.v = old.v_old ∧
      it2.f_ext = old.f_ext_old := by
  revert h
  induction it using newtonLoop.induct P normV lin sch absF old with
  | case1 x hg hn hcab =>
      intro h
      rw [newtonLoop] at h
      simp only [if_pos hg, dif_pos hn, if_pos hcab] at h
      exact NewtonResult.noConfusion h
  | case2 x hg hn hcab =>
      intro h
      rw [newtonLoop] at h
      simp only [if_pos hg, dif_pos hn, if_neg hcab] at h
      injection h with h3
      subst h3
      simpa using hcab
  | case3 x hg delta_q c nr out it2b hn ih =>
      intro h
      rw [newtonLoop] at h
      simp only [if_pos hg, dif_neg hn] at h
      exact ih h
  | case4 x hg =>
      intro h
      rw [newtonLoop] at h
      simp only [if_neg hg] at h
      exact NewtonResult.noConfusion h

/-- The iteration counter never decreases from entry to a converged exit of
the dynamics Newton loop. -/
theorem newtonLoop_converged_n_iter_le (it j : DynIter α V MM)
    (h : newtonLoop P normV lin sch absF old it = .converged j) :
    it.n_iter ≤ j.n_iter := by
  revert h
  induction it using newtonLoop.induct P normV lin sch absF old with
  | case1 x hg hn hcab =>
      intro h
      rw [newtonLoop] at h
      simp only [if_pos hg, dif_pos hn, if_pos hcab] at h
      exact NewtonResult.noConfusion h
  | case2 x hg hn hcab =>
      intro h
      rw [newtonLoop] at h
      simp only [if_pos hg, dif_pos hn, if_neg hcab] at h
      exact NewtonResult.noConfusion h
  | case3 x hg delta_q c nr out it2b hn ih =>
      intro h
      rw [newtonLoop] at h
      simp only [if_pos hg, dif_neg hn] at h
      have h2 := ih h
      simp only [it2b] at h2
      omega
  | case4 x hg =>
      intro h
      rw [newtonLoop] at h
      simp only [if_neg hg, NewtonResult.converged.injEq] at h
      exact h ▸ le_rfl

/-- The dynamics Newton loop leaves its entry state untouched (converges
with zero iterations) exactly when the convergence test already holds at
entry: `norm res ≤ rtol * abs_f_ext + atol`. -/
theorem newtonLoop_converged_self_iff (it : DynIter α V MM) :
    newtonLoop P normV lin sch absF old it = .converged it ↔
      ¬(normV it.res > P.rtol * absF + P.atol) := by
  constructor
  · intro h hg
    rw [newtonLoop] at h
    by_cases hn : it.n_iter + 1 > P.n_iter_max
    · by_cases hcab : P.conv_abort
      · simp only [if_pos hg, dif_pos hn, if_pos hcab] at h
        exact NewtonResult.noConfusion h
      · simp only [if_pos hg, dif_pos hn, if_neg hcab] at h
        exact NewtonResult.noConfusion h
    · simp only [if_pos hg, dif_neg hn] at h
      have h2 := newtonLoop_converged_n_iter_le P normV lin sch absF old _ _ h
      simp only [] at h2
      omega
  · intro hg
    rw [newtonLoop, if_neg hg]

/-- With `write_iter = false` the dynamics Newton loop never touches the
output history. -/
theorem newtonLoop_output_eq (hw : P.write_iter = false)
    (it : DynIter α V MM) :
    ((newtonLoop P normV lin sch absF old it).iter).output = it.output := by
  induction it using newtonLoop.induct P normV lin sch absF old with
  | case1 x hg hn hcab =>
      rw [newtonLoop]
      simp only [if_pos hg, dif_pos hn, if_pos hcab, NewtonResult.iter, hw,
        Bool.false_eq_true, if_false]
  | case2 x hg hn hcab =>
      rw [newtonLoop]
      simp only [if_pos hg, dif_pos hn, if_neg hcab, NewtonResult.iter, hw,
        Bool.false_eq_true, if_false]
  | case3 x hg delta_q c nr out it2b hn ih =>
      rw [newtonLoop]
      simp only [if_pos hg, dif_neg hn]
      simp only [it2b, out, nr, c, delta_q, dite_eq_ite] at ih
      rw [ih]
      simp only [hw, Bool.false_eq_true, if_false]
  | case4 x hg =>
      rw [newtonLoop]
      simp only [if_neg hg, NewtonResult.iter]

/-- A converged exit of the dynamics Newton loop keeps the entry time. -/
theorem newtonLoop_converged_t (it j : DynIter α V MM)
    (h : newtonLoop P normV lin sch absF old it = .converged j) :
    j.t = it.t := by
  revert h
  induction it using newtonLoop.induct P normV lin sch absF old with
  | case1 x hg hn hcab =>
      intro h
      rw [newtonLoop] at h
      simp only [if_pos hg, dif_pos hn, if_pos hcab] at h
      exact NewtonResult.noConfusion h
  | case2 x hg hn hcab =>
      intro h
      rw [newtonLoop] at h
      simp only [if_pos hg, dif_pos hn, if_neg hcab] at h
      exact NewtonResult.noConfusion h
  | case3 x hg delta_q c nr out it2b hn ih =>
      intro h
      rw [newtonLoop] at h
      simp only [if_pos hg, dif_neg hn] at h
      have h2 := ih h
      simpa only [it2b] using h2
  | case4 x hg =>
      intro h
      rw [newtonLoop] at h
      simp only [if_neg hg, NewtonResult.converged.injEq] at h
      exact h ▸ rfl

/-- An aborted exit of the dynamics Newton loop keeps the entry time. -/
theorem newtonLoop_aborted_t (it j : DynIter α V MM)
    (h : newtonLoop P normV lin sch absF old it = .aborted j) :
    j.t = it.t := by
  revert h
  induction it using newtonLoop.induct P normV lin sch absF old with
  | case1 x hg hn hcab =>
      intro h
      rw [newtonLoop] at h
      simp only [if_pos hg, dif_pos hn, if_pos hcab,
        NewtonResult.aborted.injEq] at h
      exact h ▸ rfl
  | case2 x hg hn hcab =>
      intro h
      rw [newtonLoop] at h
      simp only [if_pos hg, dif_pos hn, if_neg hcab] at h
      exact NewtonResult.noConfusion h
  | case3 x hg delta_q c nr out it2b hn ih =>
      intro h
      rw [newtonLoop] at h
      simp only [if_pos hg, dif_neg hn] at h
      have h2 := ih h
      simpa only [it2b] using h2
  | case4 x hg =>
      intro h
      rw [newtonLoop] at h
      simp only [if_neg hg] at h
      exact NewtonResult.noConfusion h

end NewtonLoopLemmas

/-- The source norm of the zero vector is zero. -/
theorem norm_of_vector_zero {n : ℕ} : norm_of_vector (0 : Fin n → ℝ) = 0 := by
  simp [norm_of_vector, Matrix.dotProduct]

/-- The source norm is nonnegative. -/
theorem norm_of_vector_nonneg {n : ℕ} (x : Fin n → ℝ) :
    0 ≤ norm_of_vector x :=
  Real.sqrt_nonneg _

/-- The source norm of a one-component vector with nonnegative entry. -/
theorem norm_of_vector_const1 {c : ℝ} (h : 0 ≤ c) :
    norm_of_vector (fun _ : Fin 1 => c) = c := by
  have hd : Matrix.dotProduct (fun _ : Fin 1 => c) (fun _ : Fin 1 => c)
      = c ^ 2 := by
    simp [Matrix.dotProduct, Fin.sum_univ_one, sq]
  rw [norm_of_vector, hd, Real.sqrt_sq h]

/-- C3 (amended): in NonlinearDynamicsSolver.solve with `conv_abort = false`,
when the Newton iteration count exceeds `n_iter_max` the step is rolled back
by restoring time `t`, displacement `q`, velocity `dq`, auxiliary velocity
`v` and external force `f_ext` to their values before the prediction — but
not the acceleration `ddq`, which keeps its last Newton-iterate value — and
the step is then retried at the same nominal `dt` (every step predicts at the
current time plus the immutable `dt`, with no step-size reduction). -/
theorem dynamics_rollback_restores_all_but_ddq {α V MM : Type}
    [LinearOrderedField α] [AddCommGroup V] (P : DynParams α) (normV : V → α)
    (lin : MM → V → V) (sch : DynScheme α V MM) (st : DynState α V)
    (st2 : DynIter α V MM)
    (h : newtonLoop P normV lin sch (stepAbsF P normV sch st)
        (stepOld st) (stepStart P sch st) = .rolledBack st2) :
    P.conv_abort = false ∧ st2.t = st.t ∧ st2.q = st.q ∧ st2.dq = st.dq ∧
      st2.v = st.v ∧ st2.f_ext = st.f_ext ∧
      (stepBody P normV lin sch st).1.t = st.t ∧
      (stepBody P normV lin sch st).1.ddq = st2.ddq ∧
      (stepBody P normV lin sch st).2 = false ∧
      (∀ s : DynState α V, (stepStart P sch s).t = s.t + P.dt) := by
  obtain ⟨hcab, ht, hq, hdq, hv, hf⟩ :=
    newtonLoop_rolledBack_eq P normV lin sch _ (stepOld st) _ _ h
  simp only [stepOld] at ht hq hdq hv hf
  refine ⟨hcab, ht, hq, hdq, hv, hf, ?_, ?_, ?_, fun s => rfl⟩
  · simp only [stepBody, h]
    exact ht
  · simp only [stepBody, h]
  · simp only [stepBody, h]

/-- Witness for the amended C3 at a concrete rational instance in which the
Newton loop rolls back. -/
theorem dynamics_rollback_restores_all_but_ddq_witness :
    (newtonLoop c3wP c3wNorm c3wLin c3wSch (stepAbsF c3wP c3wNorm c3wSch c3wSt)
        (stepOld c3wSt) (stepStart c3wP c3wSch c3wSt) = .rolledBack c3wIt2) ∧
    c3wP.conv_abort = false ∧ c3wIt2.t = c3wSt.t ∧ c3wIt2.q = c3wSt.q ∧
      c3wIt2.dq = c3wSt.dq ∧ c3wIt2.v = c3wSt.v ∧
      c3wIt2.f_ext = c3wSt.f_ext := by
  have h : newtonLoop c3wP c3wNorm c3wLin c3wSch
      (stepAbsF c3wP c3wNorm c3wSch c3wSt) (stepOld c3wSt)
      (stepStart c3wP c3wSch c3wSt) = .rolledBack c3wIt2 := by
    rw [newtonLoop]
    norm_num [c3wP, c3wNorm, c3wLin, c3wSch, c3wSt, c3wIt2, stepAbsF,
      stepStart, stepOld]
  have hc := dynamics_rollback_restores_all_but_ddq c3wP c3wNorm c3wLin c3wSch
    c3wSt c3wIt2 h
  exact ⟨h, hc.1, hc.2.1, hc.2.2.1, hc.2.2.2.1, hc.2.2.2.2.1, hc.2.2.2.2.2.1⟩

/-- The output grid of the concrete dynamics run. -/
theorem c3_grid : arange (0 : ℝ) 2 1 = [0, 1] := by
  have hc : ⌈((2 : ℝ) - 0) / 1⌉ = 2 := by
    norm_num
  rw [arange, hc]
  have hr : List.range (Int.toNat 2) = [0, 1] := rfl
  rw [hr]
  simp

/-- One full time step of the concrete dynamics run: the Newton loop never
converges, so the step rolls back, leaving only `ddq` and the scale trace
changed. -/
theorem c3_stepBody (st : DynState ℝ (Fin 1 → ℝ)) (ht : st.t = 0)
    (hq : st.q = 0) (hdq : st.dq = 0) (hv : st.v = 0) (hf : st.f_ext = 0)
    (ha : st.abs_f_ext = 0) :
    stepBody c3P norm_of_vector c3lin c3Sch st =
      ({ t := 0, q := 0, dq := 0, v := 0, ddq := fun _ => 5, f_ext := 0,
         abs_f_ext := 0, time_index := st.time_index, output := st.output,
         info := st.info, absFTrace := st.absFTrace ++ [0],
         accepted := st.accepted }, false) := by
  have hstart : stepStart c3P c3Sch st =
      ⟨st.t + 1, st.q, st.dq, st.v, fun _ => 5, 1, fun _ => 1, 0, 0,
       st.output⟩ := by
    simp [stepStart, c3Sch, c3P]
  have habs : stepAbsF c3P norm_of_vector c3Sch st = 0 := by
    rw [stepAbsF, hstart]
    simp [ha, norm_of_vector_zero, c3P]
  have hone : norm_of_vector (fun _ : Fin 1 => (1 : ℝ)) = 1 :=
    norm_of_vector_const1 (by norm_num)
  have hnl : newtonLoop c3P norm_of_vector c3lin c3Sch 0 (stepOld st)
      (stepStart c3P c3Sch st) =
      .rolledBack ⟨st.t, st.q, st.dq, st.v, fun _ => 5, 1, fun _ => 1,
        st.f_ext, 1, st.output⟩ := by
    rw [hstart, newtonLoop]
    simp only [c3P, c3lin, c3Sch, stepOld]
    norm_num [hone]
  rw [stepBody]
  simp only [habs]
  rw [hnl]
  simp [c3P, DynState.mk.injEq, Prod.mk.injEq, ht, hq, hdq, hv, hf]

/-- C3 counterexample: running the embedded solve on a one-dof system whose
Newton loop always rolls back (conv_abort = false, n_iter_max = 0) leaves
`t, q` at their initial (rolled-back) values but `ddq` at the constant-5
prediction, so the rollback does not restore the acceleration as the claim
states. -/
theorem c3_counterexample :
    (dynSolve c3P norm_of_vector c3lin c3Sch 0 0 0 2).t = 0 ∧
    (dynSolve c3P norm_of_vector c3lin c3Sch 0 0 0 2).q = 0 ∧
    (dynSolve c3P norm_of_vector c3lin c3Sch 0 0 0 2).ddq = (fun _ => 5) ∧
    (fun _ : Fin 1 => (5 : ℝ)) ≠ (0 : Fin 1 → ℝ) := by
  have hgrid : arange c3P.t0 c3P.t_end c3P.dt_output = [0, 1] := by
    rw [show c3P.t0 = (0 : ℝ) from rfl, show c3P.t_end = (2 : ℝ) from rfl,
      show c3P.dt_output = (1 : ℝ) from rfl, c3_grid]
  have hinit : dynInit c3P (0 : Fin 1 → ℝ) 0 0 =
      ⟨0, 0, 0, 0, 0, 0, 0, 0, [], [], [], [(0, 0)]⟩ := by
    simp [dynInit, c3P]
  have hw0 : writePhase [(0 : ℝ), 1]
      (⟨0, 0, 0, 0, 0, 0, 0, 0, [], [], [], [(0, 0)]⟩ :
        DynState ℝ (Fin 1 → ℝ)) =
      (⟨0, 0, 0, 0, 0, 0, 0, 1, [(0, 0)], [], [], [(0, 0)]⟩, false) := by
    rw [writePhase]
    norm_num [outEps]
  have hs1 : stepBody c3P norm_of_vector c3lin c3Sch
      (⟨0, 0, 0, 0, 0, 0, 0, 1, [(0, 0)], [], [], [(0, 0)]⟩ :
        DynState ℝ (Fin 1 → ℝ)) =
      (⟨0, 0, 0, 0, fun _ => 5, 0, 0, 1, [(0, 0)], [], [0], [(0, 0)]⟩,
       false) := by
    rw [c3_stepBody _ rfl rfl rfl rfl rfl rfl]
    rfl
  have hw1 : writePhase [(0 : ℝ), 1]
      (⟨0, 0, 0, 0, fun _ => 5, 0, 0, 1, [(0, 0)], [], [0], [(0, 0)]⟩ :
        DynState ℝ (Fin 1 → ℝ)) =
      (⟨0, 0, 0, 0, fun _ => 5, 0, 0, 1, [(0, 0)], [], [0], [(0, 0)]⟩,
       false) := by
    rw [writePhase]
    norm_num [outEps]
  have hs2 : stepBody c3P norm_of_vector c3lin c3Sch
      (⟨0, 0, 0, 0, fun _ => 5, 0, 0, 1, [(0, 0)], [], [0], [(0, 0)]⟩ :
        DynState ℝ (Fin 1 → ℝ)) =
      (⟨0, 0, 0, 0, fun _ => 5, 0, 0, 1, [(0, 0)], [], [0, 0], [(0, 0)]⟩,
       false) := by
    rw [c3_stepBody _ rfl rfl rfl rfl rfl rfl]
    rfl
  have hrun : dynSolve c3P norm_of_vector c3lin c3Sch 0 0 0 2 =
      ⟨0, 0, 0, 0, fun _ => 5, 0, 0, 1, [(0, 0)], [], [0, 0], [(0, 0)]⟩ := by
    rw [dynSolve, hgrid, hinit, timeLoop, hw0]
    simp only [hs1, Bool.false_eq_true, if_false]
    rw [timeLoop, hw1]
    simp only [hs2, Bool.false_eq_true, if_false]
    rw [timeLoop]
  refine ⟨by rw [hrun], by rw [hrun], by rw [hrun], ?_⟩
  intro hcontra
  have h5 := congrFun hcontra 0
  norm_num at h5


section DynScaleLemmas

variable {α V MM : Type} [LinearOrderedField α] [AddCommGroup V]
variable (P : DynParams α) (normV : V → α) (lin : MM → V → V)
variable (sch : DynScheme α V MM)

/-- The output check never changes the convergence scale. -/
theorem writePhase_abs_f_ext (grid : List α) (st : DynState α V) :
    (writePhase grid st).1.abs_f_ext = st.abs_f_ext := by
  rw [writePhase]
  split_ifs <;> rfl

/-- The output check never changes the recorded scale trace. -/
theorem writePhase_absFTrace (grid : List α) (st : DynState α V) :
    (writePhase grid st).1.absFTrace = st.absFTrace := by
  rw [writePhase]
  split_ifs <;> rfl

/-- Every time step records exactly the scale it used for its Newton loop. -/
theorem stepBody_absFTrace (st : DynState α V) :
    (stepBody P normV lin sch st).1.absFTrace =
      st.absFTrace ++ [stepAbsF P normV sch st] := by
  rcases hm : newtonLoop P normV lin sch (stepAbsF P normV sch st)
      (stepOld st) (stepStart P sch st) with it | it | it <;>
    simp only [stepBody, hm]

/-- Every time step sets the stored scale to the scale it used. -/
theorem stepBody_abs_f_ext (st : DynState α V) :
    (stepBody P normV lin sch st).1.abs_f_ext =
      stepAbsF P normV sch st := by
  rcases hm : newtonLoop P normV lin sch (stepAbsF P normV sch st)
      (stepOld st) (stepStart P sch st) with it | it | it <;>
    simp only [stepBody, hm]

/-- The scale of a step dominates the stored scale. -/
theorem stepAbsF_ge (st : DynState α V) :
    st.abs_f_ext ≤ stepAbsF P normV sch st :=
  le_max_left _ _

/-- Along the time loop, the stored scale never drops below its starting
value and every recorded scale is at least the stored scale at entry. -/
theorem timeLoop_absFTrace_ge (grid : List α) (a : α) :
    ∀ (fuel : ℕ) (st : DynState α V), a ≤ st.abs_f_ext →
      (∀ s ∈ st.absFTrace, a ≤ s) →
      ∀ s ∈ (timeLoop P normV lin sch grid fuel st).absFTrace, a ≤ s := by
  intro fuel
  induction fuel with
  | zero =>
      intro st h1 h2
      exact h2
  | succ fuel ih =>
      intro st h1 h2
      rw [timeLoop]
      by_cases hw : (writePhase grid st).2 = true
      · rw [if_pos hw]
        rw [writePhase_absFTrace]
        exact h2
      · rw [if_neg hw]
        have h1w : a ≤ (writePhase grid st).1.abs_f_ext := by
          rw [writePhase_abs_f_ext]; exact h1
        have h2w : ∀ s ∈ (writePhase grid st).1.absFTrace, a ≤ s := by
          rw [writePhase_absFTrace]; exact h2
        by_cases hr : (stepBody P normV lin sch (writePhase grid st).1).2 = true
        · rw [if_pos hr]
          rw [stepBody_absFTrace]
          intro s hs
          rcases List.mem_append.mp hs with hs | hs
          · exact h2w s hs
          · have hs1 : s = stepAbsF P normV sch (writePhase grid st).1 := by
              simpa using hs
            exact hs1 ▸ le_trans h1w (stepAbsF_ge P normV sch _)
        · rw [if_neg hr]
          refine ih _ ?_ ?_
          · rw [stepBody_abs_f_ext]
            exact le_trans h1w (stepAbsF_ge P normV sch _)
          · rw [stepBody_absFTrace]
            intro s hs
            rcases List.mem_append.mp hs with hs | hs
            · exact h2w s hs
            · have hs1 : s = stepAbsF P normV sch (writePhase grid st).1 := by
                simpa using hs
              exact hs1 ▸ le_trans h1w (stepAbsF_ge P normV sch _)

end DynScaleLemmas

/-- C2: in the dynamics Newton loop the iteration continues exactly while
`norm_of_vector res > rtol * S + atol`, where the scale `S` of a step is the
running maximum — initialized to `atol` and updated once per step with the
observed `norm_of_vector f_ext` of the step's first evaluation — so with
`atol > 0` the scale is never zero, even for a step starting from zero
external force. -/
theorem dynamics_convergence_scale {n : ℕ} (P : DynParams ℝ)
    (lin : Matrix (Fin n) (Fin n) ℝ → (Fin n → ℝ) → Fin n → ℝ)
    (sch : DynScheme ℝ (Fin n → ℝ) (Matrix (Fin n) (Fin n) ℝ))
    (q0 dq0 vEmpty : Fin n → ℝ) (fuel : ℕ) (hatol : 0 < P.atol) :
    (dynInit P q0 dq0 vEmpty).abs_f_ext = P.atol ∧
    (∀ st : DynState ℝ (Fin n → ℝ),
      stepAbsF P norm_of_vector sch st =
        max st.abs_f_ext (norm_of_vector (stepStart P sch st).f_ext) ∧
      (stepBody P norm_of_vector lin sch st).1.absFTrace =
        st.absFTrace ++ [stepAbsF P norm_of_vector sch st]) ∧
    (∀ s ∈ (dynSolve P norm_of_vector lin sch q0 dq0 vEmpty fuel).absFTrace,
      P.atol ≤ s ∧ 0 < s) ∧
    (∀ (absF : ℝ) (old : DynOld ℝ (Fin n → ℝ))
        (it : DynIter ℝ (Fin n → ℝ) (Matrix (Fin n) (Fin n) ℝ)),
      newtonLoop P norm_of_vector lin sch absF old it = .converged it ↔
        ¬(norm_of_vector it.res > P.rtol * absF + P.atol)) := by
  refine ⟨rfl, fun st => ⟨rfl, stepBody_absFTrace P norm_of_vector lin sch st⟩,
    ?_, fun absF old it =>
      newtonLoop_converged_self_iff P norm_of_vector lin sch absF old it⟩
  intro s hs
  have hge := timeLoop_absFTrace_ge P norm_of_vector lin sch
    (arange P.t0 P.t_end P.dt_output) P.atol fuel (dynInit P q0 dq0 vEmpty)
    le_rfl (by intro s hs2; exact absurd hs2 (List.not_mem_nil s)) s hs
  exact ⟨hge, lt_of_lt_of_le hatol hge⟩

/-- Witness for C2 at a concrete zero-dof instance with `atol = 1`. -/
theorem dynamics_convergence_scale_witness :
    (0 : ℝ) <
      (⟨0, 1, 1, 1, 0, 1, 0, false, false, false, false⟩ :
        DynParams ℝ).atol ∧
    (dynInit (⟨0, 1, 1, 1, 0, 1, 0, false, false, false, false⟩ :
        DynParams ℝ) (0 : Fin 0 → ℝ) 0 0).abs_f_ext =
      (⟨0, 1, 1, 1, 0, 1, 0, false, false, false, false⟩ :
        DynParams ℝ).atol :=
  ⟨by norm_num,
   (dynamics_convergence_scale
      (⟨0, 1, 1, 1, 0, 1, 0, false, false, false, false⟩ : DynParams ℝ)
      (fun _ _ => 0)
      ⟨fun q dq v ddq => (q, dq, v, ddq),
       fun _ _ _ _ _ _ _ _ _ _ => (0, 0, 0),
       fun q dq v ddq _ => (q, dq, v, ddq)⟩
      0 0 0 0 (by norm_num)).1⟩

section OutputLemmas

variable {α V MM : Type} [LinearOrderedField α] [AddCommGroup V]
variable (P : DynParams α) (normV : V → α) (lin : MM → V → V)
variable (sch : DynScheme α V MM)

/-- Appending an upper bound to a non-decreasing list keeps it
non-decreasing. -/
theorem chain_append_singleton {β : Type} (R : β → β → Prop) (l : List β)
    (b : β) (hc : List.Chain' R l) (hall : ∀ x ∈ l, R x b) :
    List.Chain' R (l ++ [b]) := by
  rw [List.chain'_append]
  refine ⟨hc, List.chain'_singleton b, ?_⟩
  intro x hx y hy
  have hxl : x ∈ l := by
    obtain ⟨hne, rfl⟩ := List.mem_getLast?_eq_getLast hx
    exact List.getLast_mem hne
  have hyb : b = y := by simpa using hy
  exact hyb ▸ hall x hxl

/-- The output check writes `(t, q)` exactly when the current time (plus the
1E-13 tolerance) has reached the next output grid point. -/
theorem writePhase_output_char (grid : List α) (st : DynState α V) :
    ((writePhase grid st).1.output = st.output ++ [(st.t, st.q)] ∧
      ∃ h : st.time_index < grid.length,
        st.t + outEps α ≥ grid.get ⟨st.time_index, h⟩) ∨
    ((writePhase grid st).1.output = st.output ∧
      ¬∃ h : st.time_index < grid.length,
        st.t + outEps α ≥ grid.get ⟨st.time_index, h⟩) := by
  rw [writePhase]
  by_cases h : st.time_index < grid.length
  · rw [dif_pos h]
    by_cases hge : st.t + outEps α ≥ grid.get ⟨st.time_index, h⟩
    · rw [if_pos hge]
      exact Or.inl ⟨rfl, h, hge⟩
    · rw [if_neg hge]
      refine Or.inr ⟨rfl, ?_⟩
      rintro ⟨h2, hge2⟩
      exact hge hge2
  · rw [dif_neg h]
    refine Or.inr ⟨rfl, ?_⟩
    rintro ⟨h2, _⟩
    exact h h2

/-- The output check leaves `t`, `q` and the committed states unchanged. -/
theorem writePhase_t_q_accepted (grid : List α) (st : DynState α V) :
    (writePhase grid st).1.t = st.t ∧ (writePhase grid st).1.q = st.q ∧
      (writePhase grid st).1.accepted = st.accepted := by
  rw [writePhase]
  split_ifs <;> exact ⟨rfl, rfl, rfl⟩

/-- The output check preserves the time-loop invariant. -/
theorem writePhase_inv (grid : List α) (st : DynState α V)
    (h : dynOutputInv st) : dynOutputInv (writePhase grid st).1 := by
  obtain ⟨hchain, hbound, hmem, hsub⟩ := h
  obtain ⟨ht, hq, hacc⟩ := writePhase_t_q_accepted grid st
  rcases writePhase_output_char grid st with ⟨hout, -⟩ | ⟨hout, -⟩
  · refine ⟨?_, ?_, ?_, ?_⟩
    · rw [hout]
      exact chain_append_singleton _ _ _ hchain fun x hx => hbound x hx
    · rw [hout, ht]
      intro w hw
      rcases List.mem_append.mp hw with hw | hw
      · exact hbound w hw
      · have : w = (st.t, st.q) := by simpa using hw
        exact this ▸ le_rfl
    · rw [ht, hq, hacc]
      exact hmem
    · rw [hout, hacc]
      intro w hw
      rcases List.mem_append.mp hw with hw | hw
      · exact hsub w hw
      · have : w = (st.t, st.q) := by simpa using hw
        exact this ▸ hmem
  · refine ⟨?_, ?_, ?_, ?_⟩
    · rw [hout]; exact hchain
    · rw [hout, ht]; exact hbound
    · rw [ht, hq, hacc]; exact hmem
    · rw [hout, hacc]; exact hsub

/-- With `write_iter = false` a time step does not write any output. -/
theorem stepBody_output (hw : P.write_iter = false) (st : DynState α V) :
    (stepBody P normV lin sch st).1.output = st.output := by
  have hnl := newtonLoop_output_eq P normV lin sch
    (stepAbsF P normV sch st) (stepOld st) hw (stepStart P sch st)
  rcases hm : newtonLoop P normV lin sch (stepAbsF P normV sch st)
      (stepOld st) (stepStart P sch st) with it | it | it <;>
    rw [hm] at hnl <;> simp only [NewtonResult.iter] at hnl <;>
    simp only [stepBody, hm] <;> rw [hnl] <;> simp only [stepStart]

/-- With a nonnegative `dt`, a time step never decreases the time. -/
theorem stepBody_t_ge (hdt : 0 ≤ P.dt) (st : DynState α V) :
    st.t ≤ (stepBody P normV lin sch st).1.t := by
  rcases hm : newtonLoop P normV lin sch (stepAbsF P normV sch st)
      (stepOld st) (stepStart P sch st) with it | it | it
  · have ht := newtonLoop_converged_t P normV lin sch
      (stepAbsF P normV sch st) (stepOld st) _ _ hm
    simp only [stepBody, hm]
    rw [ht]
    simp only [stepStart]
    linarith
  · have ht := (newtonLoop_rolledBack_eq P normV lin sch
      (stepAbsF P normV sch st) (stepOld st) _ _ hm).2.1
    simp only [stepBody, hm]
    rw [ht]
    simp only [stepOld]
    exact le_rfl
  · have ht := newtonLoop_aborted_t P normV lin sch
      (stepAbsF P normV sch st) (stepOld st) _ _ hm
    simp only [stepBody, hm]
    rw [ht]
    simp only [stepStart]
    linarith

/-- A time step only ever extends the committed states. -/
theorem stepBody_accepted_sub (st : DynState α V) :
    st.accepted ⊆ (stepBody P normV lin sch st).1.accepted := by
  rcases hm : newtonLoop P normV lin sch (stepAbsF P normV sch st)
      (stepOld st) (stepStart P sch st) with it | it | it <;>
    simp only [stepBody, hm] <;> intro w hw
  · exact List.mem_append_left _ hw
  · exact hw
  · exact hw

/-- A non-aborting time step leaves the current state committed. -/
theorem stepBody_current_mem (st : DynState α V)
    (hmem : (st.t, st.q) ∈ st.accepted)
    (hno : (stepBody P normV lin sch st).2 = false) :
    ((stepBody P normV lin sch st).1.t, (stepBody P normV lin sch st).1.q) ∈
      (stepBody P normV lin sch st).1.accepted := by
  rcases hm : newtonLoop P normV lin sch (stepAbsF P normV sch st)
      (stepOld st) (stepStart P sch st) with it | it | it
  · simp only [stepBody, hm]
    exact List.mem_append_right _ (by simp)
  · obtain ⟨-, -, hq2, -, -, -⟩ := newtonLoop_rolledBack_eq P normV lin sch
      (stepAbsF P normV sch st) (stepOld st) _ _ hm
    have ht2 := (newtonLoop_rolledBack_eq P normV lin sch
      (stepAbsF P normV sch st) (stepOld st) _ _ hm).2.1
    simp only [stepBody, hm]
    rw [ht2, hq2]
    simpa only [stepOld] using hmem
  · simp only [stepBody, hm] at hno
    exact Bool.noConfusion hno

/-- With `write_iter = false` and a nonnegative `dt`, a time step preserves
the recorded-output part of the invariant, and preserves the whole invariant
unless it aborts. -/
theorem stepBody_inv (hw : P.write_iter = false) (hdt : 0 ≤ P.dt)
    (st : DynState α V) (h : dynOutputInv st) :
    (List.Chain' (fun a b : α × V => a.1 ≤ b.1)
        (stepBody P normV lin sch st).1.output ∧
      (∀ w ∈ (stepBody P normV lin sch st).1.output,
        w.1 ≤ (stepBody P normV lin sch st).1.t) ∧
      (∀ w ∈ (stepBody P normV lin sch st).1.output,
        w ∈ (stepBody P normV lin sch st).1.accepted)) ∧
    ((stepBody P normV lin sch st).2 = false →
      dynOutputInv (stepBody P normV lin sch st).1) := by
  obtain ⟨hchain, hbound, hmem, hsub⟩ := h
  have hout := stepBody_output P normV lin sch hw st
  have htge := stepBody_t_ge P normV lin sch hdt st
  have hacc := stepBody_accepted_sub P normV lin sch st
  refine ⟨⟨?_, ?_, ?_⟩, ?_⟩
  · rw [hout]; exact hchain
  · rw [hout]
    intro w hwm
    exact le_trans (hbound w hwm) htge
  · rw [hout]
    intro w hwm
    exact hacc (hsub w hwm)
  · intro hno
    refine ⟨?_, ?_, ?_, ?_⟩
    · rw [hout]; exact hchain
    · rw [hout]
      intro w hwm
      exact le_trans (hbound w hwm) htge
    · exact stepBody_current_mem P normV lin sch st hmem hno
    · rw [hout]
      intro w hwm
      exact hacc (hsub w hwm)

/-- The time loop keeps output times non-decreasing and every written state
committed. -/
theorem timeLoop_inv (hw : P.write_iter = false) (hdt : 0 ≤ P.dt)
    (grid : List α) :
    ∀ (fuel : ℕ) (st : DynState α V), dynOutputInv st →
      List.Chain' (fun a b : α × V => a.1 ≤ b.1)
          (timeLoop P normV lin sch grid fuel st).output ∧
      ∀ w ∈ (timeLoop P normV lin sch grid fuel st).output,
        w ∈ (timeLoop P normV lin sch grid fuel st).accepted := by
  intro fuel
  induction fuel with
  | zero =>
      intro st h
      exact ⟨h.1, h.2.2.2⟩
  | succ fuel ih =>
      intro st h
      rw [timeLoop]
      have hwinv := writePhase_inv grid st h
      by_cases hw2 : (writePhase grid st).2 = true
      · rw [if_pos hw2]
        exact ⟨hwinv.1, hwinv.2.2.2⟩
      · rw [if_neg hw2]
        have hstep := stepBody_inv P normV lin sch hw hdt _ hwinv
        by_cases hr : (stepBody P normV lin sch (writePhase grid st).1).2 = true
        · rw [if_pos hr]
          exact ⟨hstep.1.1, hstep.1.2.2⟩
        · rw [if_neg hr]
          exact ih _ (hstep.2 (Bool.not_eq_true _ ▸ hr))

end OutputLemmas

/-- C6: with `write_iter = false`, the dynamics solve writes a state exactly
when `t + 1E-13` has reached the next point of the output grid
`arange(t0, t_end, dt_output)`; the written times are non-decreasing, and
every written state is a committed one — the initial state or a state
accepted by the Newton loop — never a rolled-back state. -/
theorem dynamics_output_discipline {α V MM : Type} [LinearOrderedField α]
    [FloorRing α] [AddCommGroup V] (P : DynParams α) (normV : V → α)
    (lin : MM → V → V) (sch : DynScheme α V MM) (q0 dq0 vEmpty : V)
    (fuel : ℕ) (hw : P.write_iter = false) (hdt : 0 ≤ P.dt) :
    (∀ (grid : List α) (st : DynState α V),
      ((writePhase grid st).1.output = st.output ++ [(st.t, st.q)] ∧
        ∃ h : st.time_index < grid.length,
          st.t + outEps α ≥ grid.get ⟨st.time_index, h⟩) ∨
      ((writePhase grid st).1.output = st.output ∧
        ¬∃ h : st.time_index < grid.length,
          st.t + outEps α ≥ grid.get ⟨st.time_index, h⟩)) ∧
    List.Chain' (fun a b : α × V => a.1 ≤ b.1)
      (dynSolve P normV lin sch q0 dq0 vEmpty fuel).output ∧
    ∀ w ∈ (dynSolve P normV lin sch q0 dq0 vEmpty fuel).output,
      w ∈ (dynSolve P normV lin sch q0 dq0 vEmpty fuel).accepted := by
  have hinv : dynOutputInv (dynInit P q0 dq0 vEmpty) := by
    refine ⟨List.chain'_nil, ?_, ?_, ?_⟩
    · intro w hwm
      exact absurd hwm (List.not_mem_nil w)
    · simp [dynInit]
    · intro w hwm
      exact absurd hwm (List.not_mem_nil w)
  have := timeLoop_inv P normV lin sch hw hdt
    (arange P.t0 P.t_end P.dt_output) fuel (dynInit P q0 dq0 vEmpty) hinv
  exact ⟨fun grid st => writePhase_output_char grid st, this.1, this.2⟩

/-- Witness for C6 at a concrete rational one-unknown instance. -/
theorem dynamics_output_discipline_witness :
    (⟨0, 1, 1, 1, 0, 1, 5, true, false, false, false⟩ :
        DynParams ℚ).write_iter = false ∧
    (0 : ℚ) ≤ (⟨0, 1, 1, 1, 0, 1, 5, true, false, false, false⟩ :
        DynParams ℚ).dt ∧
    List.Chain' (fun a b : ℚ × ℚ => a.1 ≤ b.1)
      (dynSolve (⟨0, 1, 1, 1, 0, 1, 5, true, false, false, false⟩ :
          DynParams ℚ) c3wNorm c3wLin c3wSch 0 0 0 3).output :=
  ⟨rfl, by norm_num,
   (dynamics_output_discipline
      (⟨0, 1, 1, 1, 0, 1, 5, true, false, false, false⟩ : DynParams ℚ)
      c3wNorm c3wLin c3wSch 0 0 0 3 rfl (by norm_num)).2.1⟩

/-- With a single load step the statics load grid is the single factor 1. -/
theorem statSteps_one {α : Type} [LinearOrderedField α] [FloorRing α]
    (P : StatParams α) (hN : P.no_of_load_steps = 1) :
    statSteps P = [1] := by
  rw [statSteps, hN]
  have h1 : ((1 : ℕ) : α) = 1 := Nat.cast_one
  rw [h1]
  have hc : ⌈((1 : α) + 1 / 1 - 1 / 1) / (1 / 1)⌉ = 1 := by norm_num
  rw [arange, hc]
  have hr : List.range (Int.toNat 1) = [0] := rfl
  rw [hr]
  simp

/-- C7: for a linear static problem — `f_int(u) = K u` with constant `K`,
constant nonzero `f_ext = F` satisfying the strict entry test, one load step,
`newton_damping = 1` and an exact linear solve — NonlinearStaticsSolver.solve
performs exactly one Newton iteration on its single load step and the
accepted displacement is the inverse image `K⁻¹ F`. -/
theorem statics_linear_one_iteration {n : ℕ} (P : StatParams ℝ)
    (lin : Matrix (Fin n) (Fin n) ℝ → (Fin n → ℝ) → Fin n → ℝ)
    (Kmat : Matrix (Fin n) (Fin n) ℝ) [Invertible Kmat] (F : Fin n → ℝ)
    (mech : StatMech ℝ (Fin n → ℝ) (Matrix (Fin n) (Fin n) ℝ))
    (hKf : mech.K_and_f = fun u _ => (Kmat, Kmat.mulVec u))
    (hfe : mech.f_ext = fun _ _ _ => F)
    (hlin : Kmat.mulVec (lin Kmat F) = F)
    (hN : P.no_of_load_steps = 1) (hdamp : P.newton_damping = 1)
    (hwrite : P.write_iter = false) (hmax : 1 < P.n_max_iter)
    (hrtol : 0 ≤ P.rtol) (hatol : 0 ≤ P.atol)
    (hF : norm_of_vector F > P.rtol * norm_of_vector F + P.atol) :
    (statSolve P norm_of_vector lin mech).u_output = [(⅟Kmat).mulVec F] ∧
    (statSolve P norm_of_vector lin mech).niters = [1] ∧
    (statSolve P norm_of_vector lin mech).abortedFlag = false := by
  have hpos : 0 ≤ P.rtol * norm_of_vector F + P.atol :=
    add_nonneg (mul_nonneg hrtol (norm_of_vector_nonneg F)) hatol
  have hbody : ∀ outp : List (ℝ × (Fin n → ℝ)),
      statIterBody P lin mech 0 1
        ⟨(0 : Fin n → ℝ), Kmat, 0, F, F, 0, outp, 0⟩ =
      ⟨lin Kmat F, Kmat, F, F, 0, 1, outp, lin Kmat F⟩ := by
    intro outp
    rw [statIterBody]
    simp [hKf, hfe, hlin, hdamp, hwrite, Nat.zero_mod]
  have hloop : ∀ outp : List (ℝ × (Fin n → ℝ)),
      statNewtonLoop P norm_of_vector lin mech 0 1
        ⟨(0 : Fin n → ℝ), Kmat, 0, F, F, 0, outp, 0⟩ =
      .done ⟨lin Kmat F, Kmat, F, F, 0, 1, outp, lin Kmat F⟩ := by
    intro outp
    rw [statNewtonLoop]
    rw [dif_pos (show norm_of_vector
        ((⟨(0 : Fin n → ℝ), Kmat, 0, F, F, 0, outp, 0⟩ :
          StatIter ℝ (Fin n → ℝ) (Matrix (Fin n) (Fin n) ℝ)).res) >
          P.rtol * norm_of_vector
            ((⟨(0 : Fin n → ℝ), Kmat, 0, F, F, 0, outp, 0⟩ :
              StatIter ℝ (Fin n → ℝ) (Matrix (Fin n) (Fin n) ℝ)).f_ext) +
            P.atol ∧ P.n_max_iter > 0 from ⟨hF, by omega⟩)]
    rw [hbody outp]
    rw [if_neg (show ¬(P.n_max_iter ≤ 0 + 1 ∧ P.conv_abort = true) from
      fun hc => absurd hc.1 (by omega))]
    rw [statNewtonLoop]
    rw [dif_neg]
    rintro ⟨hg, -⟩
    rw [show (⟨lin Kmat F, Kmat, F, F, 0, 1, outp, lin Kmat F⟩ :
        StatIter ℝ (Fin n → ℝ) (Matrix (Fin n) (Fin n) ℝ)).res = 0 from rfl,
      norm_of_vector_zero] at hg
    exact absurd hg (not_lt.mpr hpos)
  have hsteps : statSteps P = [1] := statSteps_one P hN
  have hKf00 : mech.K_and_f 0 0 = (Kmat, (0 : Fin n → ℝ)) := by
    simp [hKf]
  have hKf01 : mech.K_and_f 0 1 = (Kmat, (0 : Fin n → ℝ)) := by
    simp [hKf]
  have hu : lin Kmat F = (⅟Kmat).mulVec F := by
    have h2 := congrArg (fun v => (⅟Kmat).mulVec v) hlin
    simpa [Matrix.mulVec_mulVec, invOf_mul_self, Matrix.one_mulVec] using h2
  rw [statSolve]
  simp only [hKf00, hsteps]
  simp only [loadLoop]
  simp only [hKf01, hfe]
  have hres : -(0 : Fin n → ℝ) + F = F := by simp
  rw [show (⟨(0 : Fin n → ℝ), Kmat, 0, F, -(0 : Fin n → ℝ) + F, 0,
      [((0 : ℝ), (0 : Fin n → ℝ))], 0⟩ :
      StatIter ℝ (Fin n → ℝ) (Matrix (Fin n) (Fin n) ℝ)) =
    ⟨(0 : Fin n → ℝ), Kmat, 0, F, F, 0, [((0 : ℝ), (0 : Fin n → ℝ))], 0⟩ from
    by rw [hres]]
  rw [hloop]
  simp only [loadLoop]
  simp [hu]

/-- Witness for C7 on the identity stiffness with unit force. -/
theorem statics_linear_one_iteration_witness :
    norm_of_vector (fun _ : Fin 1 => (1 : ℝ)) >
      (0 : ℝ) * norm_of_vector (fun _ : Fin 1 => (1 : ℝ)) + 0 ∧
    (statSolve (⟨1, 0, 0, 1, 2, 1, false, true, true, false⟩ :
        StatParams ℝ) norm_of_vector (fun _ b => b)
        ⟨fun u _ => ((1 : Matrix (Fin 1) (Fin 1) ℝ),
          (1 : Matrix (Fin 1) (Fin 1) ℝ).mulVec u),
         fun _ _ _ => fun _ => 1⟩).u_output =
      [(1 : Matrix (Fin 1) (Fin 1) ℝ).mulVec (fun _ => 1)] := by
  have h1 : norm_of_vector (fun _ : Fin 1 => (1 : ℝ)) = 1 :=
    norm_of_vector_const1 (by norm_num)
  constructor
  · rw [h1]; norm_num
  · have h2 := (@statics_linear_one_iteration 1
      (⟨1, 0, 0, 1, 2, 1, false, true, true, false⟩ : StatParams ℝ)
      (fun _ b => b) (1 : Matrix (Fin 1) (Fin 1) ℝ) invertibleOne
      (fun _ => 1)
      ⟨fun u _ => ((1 : Matrix (Fin 1) (Fin 1) ℝ),
        (1 : Matrix (Fin 1) (Fin 1) ℝ).mulVec u),
       fun _ _ _ => fun _ => 1⟩
      rfl rfl (by rw [Matrix.one_mulVec]) rfl rfl rfl (by norm_num)
      le_rfl le_rfl (by rw [h1]; norm_num)).1
    rwa [@invOf_one (Matrix (Fin 1) (Fin 1) ℝ) _ invertibleOne] at h2

/-- The statics load grid always has exactly `no_of_load_steps` points. -/
theorem statSteps_length {α : Type} [LinearOrderedField α] [FloorRing α]
    (P : StatParams α) : (statSteps P).length = P.no_of_load_steps := by
  rw [statSteps, arange, List.length_map, List.length_range,
    add_sub_cancel_right, one_div_one_div, Int.ceil_natCast,
    Int.toNat_natCast]

/-- When the load loop ends in an abort, strictly fewer displacements than
load steps have been appended: the non-converged step is not appended and no
later step runs. -/
theorem loadLoop_abort_length {α V MM : Type} [LinearOrderedField α]
    [AddCommGroup V] [Module α V] (P : StatParams α) (normV : V → α)
    (lin : MM → V → V) (mech : StatMech α V MM) (du : V) :
    ∀ (ts : List α) (st : StatState α V MM), st.abortedFlag = false →
      (loadLoop P normV lin mech du ts st).abortedFlag = true →
      (loadLoop P normV lin mech du ts st).u_output.length <
        st.u_output.length + ts.length := by
  intro ts
  induction ts with
  | nil =>
      intro st h0 h1
      simp only [loadLoop] at h1
      rw [h0] at h1
      exact absurd h1 (by simp)
  | cons t ts ih =>
      intro st h0 h1
      simp only [loadLoop] at h1 ⊢
      split at h1 <;> rename_i it heq
      · simp only [List.length_cons]
        omega
      · have hlen := ih _ rfl h1
        simp only [List.length_append, List.length_cons,
          List.length_nil] at hlen
        simp only [List.length_cons]
        omega

/-- C8: in NonlinearStaticsSolver.solve with `conv_abort = true`, if a load
step's Newton iteration reaches `n_max_iter` without converging the solver
returns immediately with only the previously converged steps' displacements:
the returned array has strictly fewer columns than `no_of_load_steps`. -/
theorem statics_abort_partial_output {α V MM : Type} [LinearOrderedField α]
    [FloorRing α] [AddCommGroup V] [Module α V] (P : StatParams α)
    (normV : V → α) (lin : MM → V → V) (mech : StatMech α V MM)
    (hab : (statSolve P normV lin mech).abortedFlag = true) :
    (statSolve P normV lin mech).u_output.length < P.no_of_load_steps := by
  rw [statSolve] at hab ⊢
  have h := loadLoop_abort_length P normV lin mech 0 (statSteps P)
    ⟨0, (mech.K_and_f 0 0).1, (mech.K_and_f 0 0).2, [(0, 0)], [], [], [],
     false⟩ rfl hab
  simpa [statSteps_length] using h

/-- Witness for C8: a rational one-unknown system whose residual never
shrinks, `n_max_iter = 1`, `conv_abort = true`: the solve aborts on the first
load step and returns an empty displacement array. -/
theorem statics_abort_partial_output_witness :
    ((statSolve (⟨1, 0, 0, 1, 1, 1, false, true, true, false⟩ :
        StatParams ℚ) c3wNorm c3wLin
        ⟨fun _ _ => (1, 0), fun _ _ _ => 1⟩).abortedFlag = true) ∧
    (statSolve (⟨1, 0, 0, 1, 1, 1, false, true, true, false⟩ :
        StatParams ℚ) c3wNorm c3wLin
        ⟨fun _ _ => (1, 0), fun _ _ _ => 1⟩).u_output.length <
      (⟨1, 0, 0, 1, 1, 1, false, true, true, false⟩ :
        StatParams ℚ).no_of_load_steps := by
  have hsteps : statSteps
      (⟨1, 0, 0, 1, 1, 1, false, true, true, false⟩ : StatParams ℚ) = [1] :=
    statSteps_one _ rfl
  have hloop : statNewtonLoop
      (⟨1, 0, 0, 1, 1, 1, false, true, true, false⟩ : StatParams ℚ)
      c3wNorm c3wLin (⟨fun _ _ => (1, 0), fun _ _ _ => 1⟩ : StatMech ℚ ℚ ℚ)
      0 1 ⟨0, 1, 0, 1, 1, 0, [0], 0⟩ =
      .aborted ⟨0, 1, 0, 1, 1, 1, [0], 0⟩ := by
    rw [statNewtonLoop]
    norm_num [statIterBody, c3wNorm, c3wLin]
  have hab : (statSolve (⟨1, 0, 0, 1, 1, 1, false, true, true, false⟩ :
      StatParams ℚ) c3wNorm c3wLin
      ⟨fun _ _ => (1, 0), fun _ _ _ => 1⟩).abortedFlag = true := by
    rw [statSolve]
    simp only [hsteps]
    simp only [loadLoop]
    norm_num
    rw [hloop]
  exact ⟨hab, statics_abort_partial_output _ c3wNorm c3wLin _ hab⟩

/-- C10: in the statics Newton loop with simplified-Newton interval `N`, an
iteration whose counter is not divisible by `N` re-evaluates neither the
stiffness, the internal force nor the external force; the residual entering
the next convergence test is the stale `-f_int + f_ext` of the last refresh,
and the correction applied is `lin K res` of the stale data, so two
consecutive non-refresh iterations apply the identical correction. -/
theorem simplified_newton_stale {α V MM : Type} [LinearOrderedField α]
    [AddCommGroup V] [Module α V] (P : StatParams α) (lin : MM → V → V)
    (mech : StatMech α V MM) (du : V) (t : α) (it : StatIter α V MM)
    (hmod : ¬ it.n_iter % P.smplfd_nwtn_itr = 0) :
    (statIterBody P lin mech du t it).K = it.K ∧
    (statIterBody P lin mech du t it).f_int = it.f_int ∧
    (statIterBody P lin mech du t it).f_ext = it.f_ext ∧
    (statIterBody P lin mech du t it).res = -it.f_int + it.f_ext ∧
    (statIterBody P lin mech du t it).lastDelta = lin it.K it.res ∧
    (it.res = -it.f_int + it.f_ext →
      (statIterBody P lin mech du t
          (statIterBody P lin mech du t it)).lastDelta =
        (statIterBody P lin mech du t it).lastDelta) := by
  refine ⟨by simp [statIterBody, hmod], by simp [statIterBody, hmod],
    by simp [statIterBody, hmod], by simp [statIterBody, hmod],
    by simp [statIterBody], ?_⟩
  intro hres
  have hK : (statIterBody P lin mech du t it).K = it.K := by
    simp [statIterBody, hmod]
  have hr : (statIterBody P lin mech du t it).res = -it.f_int + it.f_ext := by
    simp [statIterBody, hmod]
  have houter : (statIterBody P lin mech du t
      (statIterBody P lin mech du t it)).lastDelta =
      lin (statIterBody P lin mech du t it).K
        (statIterBody P lin mech du t it).res := by
    simp [statIterBody]
  rw [houter, hK, hr, ← hres]
  simp [statIterBody]

/-- Witness for C10 at a concrete rational iteration state with `N = 2` and
counter 1. -/
theorem simplified_newton_stale_witness :
    (¬ (⟨0, 3, 4, 5, 6, 1, [], 0⟩ :
        StatIter ℚ ℚ ℚ).n_iter %
          (⟨1, 0, 0, 1, 5, 2, false, true, true, false⟩ :
            StatParams ℚ).smplfd_nwtn_itr = 0) ∧
    (statIterBody (⟨1, 0, 0, 1, 5, 2, false, true, true, false⟩ :
        StatParams ℚ) (fun a b => a * b) ⟨fun u t => (u + t, u),
        fun _ _ _ => 2⟩ 0 1 ⟨0, 3, 4, 5, 6, 1, [], 0⟩).K =
      (⟨0, 3, 4, 5, 6, 1, [], 0⟩ : StatIter ℚ ℚ ℚ).K :=
  ⟨by decide,
   (simplified_newton_stale
      (⟨1, 0, 0, 1, 5, 2, false, true, true, false⟩ : StatParams ℚ)
      (fun a b => a * b) ⟨fun u t => (u + t, u), fun _ _ _ => 2⟩ 0 1
      ⟨0, 3, 4, 5, 6, 1, [], 0⟩ (by decide)).1⟩

end AMfe
